import Mathlib

/-!
Shallow embedding of the icon effect-processing pipeline implemented in
`src/assets/icons/process_effects.py`.

The pipeline operates on RGBA rasters.  Pixels are modelled as quadruples of
natural numbers (the source works on 8-bit channels, 0..255); a raster is a
pair of dimensions together with a total pixel function, where positions
outside the rectangle `0 ≤ x < w, 0 ≤ y < h` carry irrelevant junk (the
Python image has no pixels there).  All statements about rasters are made
pointwise on the meaningful rectangle.
-/

/-- RGBA pixel; each channel is 8-bit (0..255) in the source, carried as `Nat`. -/
structure Pixel where
  r : Nat
  g : Nat
  b : Nat
  a : Nat
deriving DecidableEq

/-- Channel bounds of a genuine RGBA pixel: every channel fits in 8 bits. -/
def Pixel.Valid (p : Pixel) : Prop :=
  p.r ≤ 255 ∧ p.g ≤ 255 ∧ p.b ≤ 255 ∧ p.a ≤ 255

instance (p : Pixel) : Decidable (Pixel.Valid p) :=
  inferInstanceAs (Decidable (_ ∧ _ ∧ _ ∧ _))

/-- RGBA raster: `pix x y` is the pixel at column `x`, row `y` (this mirrors the
`pixels[x, y]` access of the source).  Positions outside the rectangle are junk. -/
structure Grid where
  w : Nat
  h : Nat
  pix : Nat → Nat → Pixel

/-- Every in-bounds pixel of the raster has 8-bit channels. -/
def Grid.Valid (g : Grid) : Prop :=
  ∀ x < g.w, ∀ y < g.h, Pixel.Valid (g.pix x y)

instance (g : Grid) : Decidable (Grid.Valid g) :=
  inferInstanceAs (Decidable (∀ x < g.w, ∀ y < g.h, Pixel.Valid (g.pix x y)))

/-- Binary mask (mode `L` image holding 0/255 in the source, booleans here). -/
structure Mask where
  w : Nat
  h : Nat
  m : Nat → Nat → Bool

/-- Typed errors raised by the pipeline: `invalidPadding` is the `ValueError`
raised by `add_padding` (process_effects.py line 220), `invalidOutlineSpec` is
any `ValueError` raised by `parse_outline_arg` (lines 71, 83, 92, 97). -/
inductive EffectError where
  | invalidPadding
  | invalidOutlineSpec
deriving DecidableEq

/-! ## Alpha normalization (`remove_partial_transparency`, lines 26-60) -/

/-- Per-pixel action of the alpha normalizer (lines 54-58): a pixel whose alpha
`a` satisfies `a >= threshold` and `a > 0` becomes `(a, a, a, 255)`; any other
pixel is left unchanged. -/
def alphaStep (threshold : Nat) (p : Pixel) : Pixel :=
  if threshold ≤ p.a ∧ 0 < p.a then ⟨p.a, p.a, p.a, 255⟩ else p

/-- Embedding of `remove_partial_transparency` (lines 26-60): the per-pixel map
`alphaStep` applied at every position; dimensions unchanged. -/
def removePartialTransparency (g : Grid) (threshold : Nat) : Grid :=
  { g with pix := fun x y => alphaStep threshold (g.pix x y) }

/-! ## Circular kernel and dilation (lines 102-154) -/

/-- Embedding of `create_circular_kernel` (lines 102-118): cell `(x, y)` of the
`(2r+1) × (2r+1)` kernel is set iff the Euclidean distance from the center
`(r, r)` is at most `r`.  The source compares `math.sqrt((x-r)^2 + (y-r)^2) <= r`
in floating point; for integer inputs in any realistic range this is equivalent
to the exact integer comparison `(x-r)^2 + (y-r)^2 <= r^2` used here (the square
root is monotone and correctly rounded, and the integer radius is exactly
representable).  Cells outside the kernel square are at distance greater than
`r`, so the function is false there as well. -/
def create_circular_kernel (radius : Nat) (x y : Nat) : Bool :=
  decide (((x : Int) - radius) ^ 2 + ((y : Int) - radius) ^ 2 ≤ (radius : Int) ^ 2)

/-- Value of the zero-padded mask array built by `np.pad(mask_array, pad,
constant_values=0)` (line 138): position `(px, py)` of the padded array holds
the mask cell `(px - pad, py - pad)` when that is in bounds, and 0 otherwise. -/
def paddedAt (mask : Mask) (pad : Nat) (px py : Nat) : Bool :=
  if pad ≤ px ∧ px < mask.w + pad ∧ pad ≤ py ∧ py < mask.h + pad then
    mask.m (px - pad) (py - pad)
  else
    false

/-- Embedding of `dilate_with_circular_kernel` (lines 121-154).  For
`radius <= 0` the mask itself is returned (line 126).  Otherwise the output has
the dimensions of the input, and the cell at `(x, y)` is set iff some position
of the circular kernel overlaps a set cell of the zero-padded mask, exactly as
the loop at lines 146-152 computes. -/
def dilate_with_circular_kernel (mask : Mask) (radius : Int) : Mask :=
  if radius ≤ 0 then mask
  else
    let r := radius.toNat
    { w := mask.w, h := mask.h,
      m := fun x y =>
        decide (∃ dy < 2 * r + 1, ∃ dx < 2 * r + 1,
          create_circular_kernel r dx dy = true ∧
          paddedAt mask r (x + dx) (y + dy) = true) }

/-! ## Brightness adjustment (`adjust_brightness`, lines 234-272) -/

/-- The brightness argument clamped to `[-100, 100]` (line 245). -/
def clampBrightness (brightness : Int) : Int :=
  max (-100) (min 100 brightness)

/-- Embedding of `adjust_brightness` (lines 234-272).  The clamped delta `b`
yields the enhancement factor `f = 1 + b/100`; a zero delta returns the input
unchanged (line 248).  `ImageEnhance.Brightness(...).enhance(f)` blends the RGB
image towards black, i.e. each RGB channel `c` becomes `c * f` truncated and
clamped to 0..255, and the alpha channel is split off and re-merged untouched
(lines 251, 270).  The factor is represented exactly as the integer
`(100 + b)`, each channel becoming `min 255 (c * (100 + b) / 100)` with
truncating division; the library computes the product in floating point, which
coincides with the exact value at the factors exercised by the claims
(in particular factor 0, i.e. delta -100). -/
def adjust_brightness (g : Grid) (brightness : Int) : Grid :=
  if clampBrightness brightness = 0 then g
  else
    { w := g.w, h := g.h,
      pix := fun x y =>
        let p := g.pix x y
        let f := (100 + clampBrightness brightness).toNat
        ⟨min 255 (p.r * f / 100), min 255 (p.g * f / 100),
         min 255 (p.b * f / 100), p.a⟩ }

/-! ## Padding (`add_padding`, lines 202-231) -/

/-- Stand-in for `img.resize((nw, nh), Image.LANCZOS)` (line 223): a raster of
the requested dimensions whose content is sampled from the input.  The LANCZOS
resampling filter of the imaging library is floating-point code outside this
repository; no claim depends on the resampled pixel values, only on the output
dimensions, so the content is modelled by nearest-neighbour sampling. -/
def resizeContent (g : Grid) (nw nh : Nat) : Grid :=
  { w := nw, h := nh, pix := fun x y => g.pix (x * g.w / nw) (y * g.h / nh) }

/-- Embedding of `add_padding` (lines 202-231).  Padding `<= 0` returns the
input (line 207).  Otherwise the content size `(w - 2p, h - 2p)` is computed;
if either is `<= 0` the function fails with `InvalidPadding` (lines 219-220).
Otherwise the resized content is pasted at offset `(p, p)` on a fully
transparent canvas of the original dimensions (lines 223-229). -/
def add_padding (g : Grid) (padding : Int) : Except EffectError Grid :=
  if padding ≤ 0 then .ok g
  else
    let p := padding.toNat
    if g.w ≤ 2 * p ∨ g.h ≤ 2 * p then .error .invalidPadding
    else
      .ok { w := g.w, h := g.h,
            pix := fun x y =>
              if p ≤ x ∧ x < g.w - p ∧ p ≤ y ∧ y < g.h - p then
                (resizeContent g (g.w - 2 * p) (g.h - 2 * p)).pix (x - p) (y - p)
              else
                ⟨0, 0, 0, 0⟩ }

/-! ## Alpha compositing (`Image.alpha_composite`, used at lines 196-197)

The imaging library implements source-over compositing in fixed-point integer
arithmetic (`AlphaComposite.c`): with `PRECISION_BITS = 7` and
`SHIFTFORDIV255(v) = ((v >> 8) + v) >> 8`, a source pixel with zero alpha
leaves the destination pixel unchanged, and otherwise

    blend   = dst.a * (255 - src.a)
    outa255 = src.a * 255 + blend
    coef1   = src.a * 255 * 255 * 128 / outa255
    coef2   = 255 * 128 - coef1
    out.c   = SHIFTFORDIV255(src.c * coef1 + dst.c * coef2 + 0x80 * 128) >> 7
    out.a   = SHIFTFORDIV255(outa255 + 0x80)

with truncating integer division throughout. -/

/-- `SHIFTFORDIV255` of the library: an integer approximation of division
by 255. -/
def shiftForDiv255 (v : Nat) : Nat :=
  (v / 256 + v) / 256

/-- Source-over compositing of `src` over `dst`, following the integer
algorithm of the imaging library described above. -/
def alphaCompositePixel (dst src : Pixel) : Pixel :=
  if src.a = 0 then dst
  else
    let blend := dst.a * (255 - src.a)
    let outa255 := src.a * 255 + blend
    let coef1 := src.a * 255 * 255 * 128 / outa255
    let coef2 := 255 * 128 - coef1
    { r := shiftForDiv255 (src.r * coef1 + dst.r * coef2 + 128 * 128) / 128,
      g := shiftForDiv255 (src.g * coef1 + dst.g * coef2 + 128 * 128) / 128,
      b := shiftForDiv255 (src.b * coef1 + dst.b * coef2 + 128 * 128) / 128,
      a := shiftForDiv255 (outa255 + 128) }

/-! ## Outline (`add_outline`, lines 157-199) -/

/-- Binary mask derived from the alpha channel (line 176): a cell is set iff
the pixel's alpha is nonzero. -/
def binaryMask (g : Grid) : Mask :=
  { w := g.w, h := g.h, m := fun x y => decide (0 < (g.pix x y).a) }

/-- Outline-only mask (line 186): cells covered by the dilated mask but not by
the original mask. -/
def outlineMask (g : Grid) (width_px : Nat) : Mask :=
  { w := g.w, h := g.h,
    m := fun x y =>
      (dilate_with_circular_kernel (binaryMask g) (width_px : Int)).m x y &&
      !((binaryMask g).m x y) }

/-- Embedding of `add_outline` (lines 157-199): build the outline layer (solid
`color` where the outline mask is set — the `paste` at line 192 with a 0/255
mask copies the color exactly at set cells and nothing elsewhere), then
composite the outline layer over a fully transparent canvas and the original
image over that (lines 195-197). -/
def add_outline (g : Grid) (width_px : Nat) (color : Pixel) : Grid :=
  { w := g.w, h := g.h,
    pix := fun x y =>
      let layer : Pixel := if (outlineMask g width_px).m x y then color else ⟨0, 0, 0, 0⟩
      let belowOriginal : Pixel := alphaCompositePixel ⟨0, 0, 0, 0⟩ layer
      alphaCompositePixel belowOriginal (g.pix x y) }

/-! ## Outline argument parsing (`parse_outline_arg`, lines 63-99)

The source matches the regular expression `(\d+)(?:px)?\s+(.+)` against the
stripped argument string, then parses the color as `#RGB` / `#RRGGBB` hex or as
`rgb(r,g,b)` / `rgba(r,g,b,a)` via the expression
`rgba?\((\d+),\s*(\d+),\s*(\d+)(?:,\s*(\d+))?\)`.  The embedding below follows
those expressions literally on the character list (backtracking never changes
the outcome here: a shorter digit run leaves a digit as next character, which
matches neither `px` nor whitespace).  Python's `int(s, 16)` additionally
tolerates an explicit sign character inside a hex pair; such colors escape the
parser only to fail at the raster boundary and are not modelled. -/

/-- Whitespace in the sense of Python's `str.strip` and the regex class `\s`. -/
def pyIsSpace (c : Char) : Bool :=
  c = ' ' || c = '\t' || c = '\n' || c = '\r' || c = '\x0b' || c = '\x0c'

/-- Python `str.strip()` on a character list. -/
def pyStrip (s : List Char) : List Char :=
  ((s.dropWhile pyIsSpace).reverse.dropWhile pyIsSpace).reverse

/-- Numeric value of a decimal digit run (`int` applied to a `\d+` group). -/
def natOfDigits (ds : List Char) : Nat :=
  ds.foldl (fun acc c => acc * 10 + (c.toNat - '0'.toNat)) 0

/-- Value of one hexadecimal digit, if any. -/
def hexVal (c : Char) : Option Nat :=
  if '0' ≤ c ∧ c ≤ '9' then some (c.toNat - '0'.toNat)
  else if 'a' ≤ c ∧ c ≤ 'f' then some (c.toNat - 'a'.toNat + 10)
  else if 'A' ≤ c ∧ c ≤ 'F' then some (c.toNat - 'A'.toNat + 10)
  else none

/-- Value of a two-digit hexadecimal group (`int(hex_color[i:i+2], 16)`). -/
def hexPair (c1 c2 : Char) : Option Nat := do
  let h1 ← hexVal c1
  let h2 ← hexVal c2
  return 16 * h1 + h2

/-- Embedding of the `rgb(...)` branch (lines 88-95): the expression
`rgba?\((\d+),\s*(\d+),\s*(\d+)(?:,\s*(\d+))?\)` matched at the start of the
color string, trailing characters ignored; a missing fourth group defaults the
alpha to 255. -/
def parseRgbColor (cs : List Char) : Option Pixel :=
  match cs with
  | 'r' :: 'g' :: 'b' :: t0 =>
    let t1 := match t0 with
      | 'a' :: t' => t'
      | _ => t0
    match t1 with
    | '(' :: t2 =>
      let d1 := t2.takeWhile Char.isDigit
      let t3 := t2.dropWhile Char.isDigit
      if d1 = [] then none
      else
        match t3 with
        | ',' :: t4 =>
          let t5 := t4.dropWhile pyIsSpace
          let d2 := t5.takeWhile Char.isDigit
          let t6 := t5.dropWhile Char.isDigit
          if d2 = [] then none
          else
            match t6 with
            | ',' :: t7 =>
              let t8 := t7.dropWhile pyIsSpace
              let d3 := t8.takeWhile Char.isDigit
              let t9 := t8.dropWhile Char.isDigit
              if d3 = [] then none
              else
                match t9 with
                | ',' :: t10 =>
                  let t11 := t10.dropWhile pyIsSpace
                  let d4 := t11.takeWhile Char.isDigit
                  let t12 := t11.dropWhile Char.isDigit
                  if d4 = [] then none
                  else
                    match t12 with
                    | ')' :: _ =>
                      some ⟨natOfDigits d1, natOfDigits d2, natOfDigits d3, natOfDigits d4⟩
                    | _ => none
                | ')' :: _ =>
                  some ⟨natOfDigits d1, natOfDigits d2, natOfDigits d3, 255⟩
                | _ => none
            | _ => none
        | _ => none
    | _ => none
  | _ => none

/-- Embedding of the color parsing of `parse_outline_arg` (lines 76-97): a
string starting with `#` is parsed as hex (all leading `#` characters stripped,
a 3-digit form doubled to 6 digits, alpha fixed at 255); a string starting with
`rgb` goes through `parseRgbColor`; anything else is rejected. -/
def parseColor (cs : List Char) : Option Pixel :=
  match cs with
  | '#' :: _ =>
    let hexRaw := cs.dropWhile (fun c => c = '#')
    let hex := if hexRaw.length = 3 then (hexRaw.map (fun c => [c, c])).flatten else hexRaw
    match hex with
    | [h1, h2, h3, h4, h5, h6] => do
      let r ← hexPair h1 h2
      let g ← hexPair h3 h4
      let b ← hexPair h5 h6
      return ⟨r, g, b, 255⟩
    | _ => none
  | 'r' :: 'g' :: 'b' :: _ => parseRgbColor cs
  | _ => none

/-- Embedding of `parse_outline_arg` (lines 63-99): strip the argument, match
`(\d+)(?:px)?\s+(.+)` (the `.+` group runs to the first newline), strip the
color group and parse it.  Any failure is the `ValueError` of the source,
modelled as `invalidOutlineSpec`. -/
def parse_outline_arg (s : String) : Except EffectError (Nat × Pixel) :=
  let cs := pyStrip s.toList
  let digits := cs.takeWhile Char.isDigit
  let rest1 := cs.dropWhile Char.isDigit
  if digits = [] then .error .invalidOutlineSpec
  else
    let rest2 := match rest1 with
      | 'p' :: 'x' :: t => t
      | _ => rest1
    let spaces := rest2.takeWhile pyIsSpace
    let rest3 := rest2.dropWhile pyIsSpace
    if spaces = [] ∨ rest3 = [] then .error .invalidOutlineSpec
    else
      let group2 := rest3.takeWhile (fun c => c ≠ '\n')
      match parseColor (pyStrip group2) with
      | some color => .ok (natOfDigits digits, color)
      | none => .error .invalidOutlineSpec

/-! ## The pipeline (`process_image`, lines 275-329) -/

/-- Parameters of one pipeline invocation, mirroring the keyword arguments of
`process_image` (lines 275-280). -/
structure EffectRequest where
  remove_transparency : Bool
  opacity_threshold : Nat
  outline : Option String
  brightness : Option Int
  padding : Option Int

/-- Stage 1 of `process_image` (lines 299-301): padding runs only when the
argument is present and positive. -/
def paddingStage (img : Grid) (req : EffectRequest) : Except EffectError Grid :=
  match req.padding with
  | some p => if 0 < p then add_padding img p else .ok img
  | none => .ok img

/-- Result of the effect chain of `process_image` (lines 296-320): padding,
then alpha normalization when requested, then brightness when present and
nonzero, then outline when the argument string is present and nonempty (the
outline string is parsed right before that stage runs, line 318). -/
def pipelineResult (img : Grid) (req : EffectRequest) : Except EffectError Grid :=
  (paddingStage img req).bind fun g1 =>
    let g2 := if req.remove_transparency
      then removePartialTransparency g1 req.opacity_threshold else g1
    let g3 := match req.brightness with
      | some b => if b = 0 then g2 else adjust_brightness g2 b
      | none => g2
    match req.outline with
    | some s =>
      if s.isEmpty then .ok g3
      else
        match parse_outline_arg s with
        | .ok wc => .ok (add_outline g3 wc.1 wc.2)
        | .error e => .error e
    | none => .ok g3

/-- Embedding of `process_image` (lines 275-329): run the effect chain, and on
success save the result once (`img.save` at line 323).  The second component
lists the grids written to the output path during the invocation. -/
def process_image (img : Grid) (req : EffectRequest) : Except EffectError Grid × List Grid :=
  match pipelineResult img req with
  | .ok g => (.ok g, [g])
  | .error e => (.error e, [])

/-! ## The requested-stage composition described by the specification -/

/-- Sequential composition of fallible stages, each stage's output feeding the
next. -/
def composeStages : List (Grid → Except EffectError Grid) → Grid → Except EffectError Grid
  | [], g => .ok g
  | f :: fs, g => (f g).bind (composeStages fs)

/-- The stage functions requested by an `EffectRequest`, in the fixed pipeline
order: padding, then alpha normalization, then brightness, then outline.  A
stage is requested exactly when the corresponding branch of `process_image`
would run it: padding present and positive, the transparency flag set,
brightness present and nonzero, outline string present and nonempty. -/
def requestedStages (req : EffectRequest) : List (Grid → Except EffectError Grid) :=
  (match req.padding with
   | some p => if 0 < p then [fun (g : Grid) => add_padding g p] else []
   | none => []) ++
  (if req.remove_transparency then
     [fun (g : Grid) => Except.ok (removePartialTransparency g req.opacity_threshold)]
   else []) ++
  (match req.brightness with
   | some b => if b = 0 then [] else [fun (g : Grid) => Except.ok (adjust_brightness g b)]
   | none => []) ++
  (match req.outline with
   | some s =>
     if s.isEmpty then []
     else [fun (g : Grid) => (parse_outline_arg s).bind fun wc => Except.ok (add_outline g wc.1 wc.2)]
   | none => [])

/-! ## Theorems -/

/-- Dimensions are preserved by dilation. -/
theorem dilate_dims (mask : Mask) (radius : Int) :
    (dilate_with_circular_kernel mask radius).w = mask.w ∧
    (dilate_with_circular_kernel mask radius).h = mask.h := by
  unfold dilate_with_circular_kernel
  split <;> exact ⟨rfl, rfl⟩

/-- Pointwise description of dilation at a positive radius. -/
theorem dilate_pos_m (mask : Mask) (radius : Int) (h : 0 < radius) (x y : Nat) :
    (dilate_with_circular_kernel mask radius).m x y =
      decide (∃ dy < 2 * radius.toNat + 1, ∃ dx < 2 * radius.toNat + 1,
        create_circular_kernel radius.toNat dx dy = true ∧
        paddedAt mask radius.toNat (x + dx) (y + dy) = true) := by
  unfold dilate_with_circular_kernel
  rw [if_neg (by omega)]

/-- The kernel's center cell is set for every radius, so every set mask cell
stays set after dilation. -/
theorem dilate_center_mem (mask : Mask) (radius : Int) (h : 0 ≤ radius) :
    ∀ x < mask.w, ∀ y < mask.h, mask.m x y = true →
      (dilate_with_circular_kernel mask radius).m x y = true := by
  intro x hx y hy hm
  by_cases h0 : radius ≤ 0
  · unfold dilate_with_circular_kernel
    rw [if_pos h0]
    exact hm
  · rw [dilate_pos_m mask radius (by omega), decide_eq_true_eq]
    refine ⟨radius.toNat, by omega, radius.toNat, by omega, ?_, ?_⟩
    · unfold create_circular_kernel
      rw [decide_eq_true_eq]
      simp only [sub_self]
      positivity
    · unfold paddedAt
      rw [if_pos ⟨by omega, by omega, by omega, by omega⟩]
      have ex : x + radius.toNat - radius.toNat = x := by omega
      have ey : y + radius.toNat - radius.toNat = y := by omega
      rw [ex, ey]
      exact hm

/-- C1: for every binary mask and radius, `dilate_with_circular_kernel`
returns a mask of the same dimensions in which cell `(x, y)` is set iff some
kernel offset `(dx, dy)` has the circular kernel cell set and the mask cell at
`(x + dx - r, y + dy - r)` set and inside the mask bounds (out-of-bounds
positions count as unset: no wraparound, no growth of the dimensions); and for
every radius `r ≤ 0` the function is a no-op returning the mask itself. -/
theorem dilate_with_circular_kernel_spec (mask : Mask) (radius : Int) :
    ((dilate_with_circular_kernel mask radius).w = mask.w ∧
     (dilate_with_circular_kernel mask radius).h = mask.h) ∧
    (0 ≤ radius → ∀ x < mask.w, ∀ y < mask.h,
      ((dilate_with_circular_kernel mask radius).m x y = true ↔
        ∃ dx ≤ 2 * radius.toNat, ∃ dy ≤ 2 * radius.toNat,
          create_circular_kernel radius.toNat dx dy = true ∧
          radius.toNat ≤ x + dx ∧ x + dx - radius.toNat < mask.w ∧
          radius.toNat ≤ y + dy ∧ y + dy - radius.toNat < mask.h ∧
          mask.m (x + dx - radius.toNat) (y + dy - radius.toNat) = true)) ∧
    (radius ≤ 0 → dilate_with_circular_kernel mask radius = mask) := by
  refine ⟨dilate_dims mask radius, ?_, ?_⟩
  · intro hr x hx y hy
    by_cases h0 : radius ≤ 0
    · have hz : radius = 0 := le_antisymm h0 hr
      subst hz
      unfold dilate_with_circular_kernel
      rw [if_pos le_rfl]
      constructor
      · intro hm
        refine ⟨0, by omega, 0, by omega, by decide, by omega, by omega, by omega, by omega, ?_⟩
        simpa using hm
      · rintro ⟨dx, hdx, dy, hdy, -, -, -, -, -, hm⟩
        have hdx0 : dx = 0 := by omega
        have hdy0 : dy = 0 := by omega
        subst hdx0; subst hdy0
        simpa using hm
    · rw [dilate_pos_m mask radius (by omega), decide_eq_true_eq]
      constructor
      · rintro ⟨dy, hdy, dx, hdx, hk, hp⟩
        unfold paddedAt at hp
        by_cases hc : (radius.toNat ≤ x + dx ∧ x + dx < mask.w + radius.toNat ∧
            radius.toNat ≤ y + dy ∧ y + dy < mask.h + radius.toNat)
        · rw [if_pos hc] at hp
          exact ⟨dx, by omega, dy, by omega, hk, hc.1, by omega, hc.2.2.1, by omega, hp⟩
        · rw [if_neg hc] at hp
          exact absurd hp (by simp)
      · rintro ⟨dx, hdx, dy, hdy, hk, h1, h2, h3, h4, hm⟩
        refine ⟨dy, by omega, dx, by omega, hk, ?_⟩
        unfold paddedAt
        rw [if_pos ⟨h1, by omega, h3, by omega⟩]
        exact hm
  · intro h0
    unfold dilate_with_circular_kernel
    rw [if_pos h0]

/-- Mask used by the C1 witness. -/
def maskW1 : Mask := ⟨1, 1, fun x y => decide (x = 0 ∧ y = 0)⟩

/-- Witness for C1 at a concrete mask and radius. -/
theorem dilate_with_circular_kernel_spec_witness :
    (0 : Int) ≤ 1 ∧ 0 < maskW1.w ∧ 0 < maskW1.h ∧
    ((dilate_with_circular_kernel maskW1 1).m 0 0 = true ↔
      ∃ dx ≤ 2 * (1 : Int).toNat, ∃ dy ≤ 2 * (1 : Int).toNat,
        create_circular_kernel (1 : Int).toNat dx dy = true ∧
        (1 : Int).toNat ≤ 0 + dx ∧ 0 + dx - (1 : Int).toNat < maskW1.w ∧
        (1 : Int).toNat ≤ 0 + dy ∧ 0 + dy - (1 : Int).toNat < maskW1.h ∧
        maskW1.m (0 + dx - (1 : Int).toNat) (0 + dy - (1 : Int).toNat) = true) :=
  ⟨by decide, by decide, by decide,
    (dilate_with_circular_kernel_spec maskW1 1).2.1 (by decide) 0 (by decide) 0 (by decide)⟩

/-- C7: dilation is monotone in the radius: for radii `0 ≤ r1 ≤ r2`, every mask
cell set in `dilate(m, r1)` is also set in `dilate(m, r2)`. -/
theorem dilate_monotone (mask : Mask) (r1 r2 : Int) (h0 : 0 ≤ r1) (h12 : r1 ≤ r2) :
    ∀ x < mask.w, ∀ y < mask.h,
      (dilate_with_circular_kernel mask r1).m x y = true →
      (dilate_with_circular_kernel mask r2).m x y = true := by
  intro x hx y hy hd
  by_cases hr1 : r1 ≤ 0
  · have hm : (dilate_with_circular_kernel mask r1).m x y = mask.m x y := by
      unfold dilate_with_circular_kernel
      rw [if_pos hr1]
    rw [hm] at hd
    exact dilate_center_mem mask r2 (by omega) x hx y hy hd
  · have hr2 : 0 < r2 := by omega
    rw [dilate_pos_m mask r1 (by omega), decide_eq_true_eq] at hd
    rw [dilate_pos_m mask r2 hr2, decide_eq_true_eq]
    obtain ⟨dy, hdy, dx, hdx, hk, hp⟩ := hd
    have hs : r1.toNat ≤ r2.toNat := by omega
    refine ⟨dy + (r2.toNat - r1.toNat), by omega, dx + (r2.toNat - r1.toNat), by omega, ?_, ?_⟩
    · unfold create_circular_kernel at hk ⊢
      rw [decide_eq_true_eq] at hk ⊢
      have e1 : ((dx + (r2.toNat - r1.toNat) : Nat) : Int) - r2.toNat = (dx : Int) - r1.toNat := by
        omega
      have e2 : ((dy + (r2.toNat - r1.toNat) : Nat) : Int) - r2.toNat = (dy : Int) - r1.toNat := by
        omega
      rw [e1, e2]
      have hsq : ((r1.toNat : Int)) ^ 2 ≤ ((r2.toNat : Int)) ^ 2 := by
        have hle : ((r1.toNat : Int)) ≤ ((r2.toNat : Int)) := by exact_mod_cast hs
        exact pow_le_pow_left₀ (by positivity) hle 2
      linarith
    · unfold paddedAt at hp ⊢
      by_cases hc : (r1.toNat ≤ x + dx ∧ x + dx < mask.w + r1.toNat ∧
          r1.toNat ≤ y + dy ∧ y + dy < mask.h + r1.toNat)
      · rw [if_pos hc] at hp
        rw [if_pos ⟨by omega, by omega, by omega, by omega⟩]
        have ex : x + (dx + (r2.toNat - r1.toNat)) - r2.toNat = x + dx - r1.toNat := by omega
        have ey : y + (dy + (r2.toNat - r1.toNat)) - r2.toNat = y + dy - r1.toNat := by omega
        rw [ex, ey]
        exact hp
      · rw [if_neg hc] at hp
        exact absurd hp (by simp)

/-- Mask used by the C7 witness. -/
def maskW7 : Mask := ⟨2, 1, fun x y => decide (x = 0 ∧ y = 0)⟩

/-- Witness for C7 at a concrete mask and radii. -/
theorem dilate_monotone_witness :
    (0 : Int) ≤ 1 ∧ (1 : Int) ≤ 2 ∧ 1 < maskW7.w ∧ 0 < maskW7.h ∧
    (dilate_with_circular_kernel maskW7 1).m 1 0 = true ∧
    (dilate_with_circular_kernel maskW7 2).m 1 0 = true :=
  ⟨by decide, by decide, by decide, by decide, by decide,
    dilate_monotone maskW7 1 2 (by decide) (by decide) 1 (by decide) 0 (by decide) (by decide)⟩

/-- C10: dilation is extensive: for every mask and radius `r ≥ 0`, every set
cell of the input mask is set in the output (the circular kernel's center cell
is set for every radius). -/
theorem dilate_extensive (mask : Mask) (radius : Int) (h : 0 ≤ radius) :
    ∀ x < mask.w, ∀ y < mask.h, mask.m x y = true →
      (dilate_with_circular_kernel mask radius).m x y = true :=
  dilate_center_mem mask radius h

/-- Mask used by the C10 witness. -/
def maskW10 : Mask := ⟨1, 2, fun x y => decide (x = 0 ∧ y = 1)⟩

/-- Witness for C10 at a concrete mask and radius. -/
theorem dilate_extensive_witness :
    (0 : Int) ≤ 3 ∧ 0 < maskW10.w ∧ 1 < maskW10.h ∧ maskW10.m 0 1 = true ∧
    (dilate_with_circular_kernel maskW10 3).m 0 1 = true :=
  ⟨by decide, by decide, by decide, by decide,
    dilate_extensive maskW10 3 (by decide) 0 (by decide) 1 (by decide) (by decide)⟩

/-- Grid used by the C3 examples and witness (end-to-end example 2, first pixel). -/
def gC3a : Grid := ⟨1, 1, fun _ _ => ⟨100, 150, 200, 200⟩⟩

/-- Grid used by the C3 examples (end-to-end example 2, second pixel). -/
def gC3b : Grid := ⟨1, 1, fun _ _ => ⟨100, 150, 200, 64⟩⟩

/-- C3: the alpha normalizer maps each pixel `(r, g, b, a)` with `a ≥ threshold`
and `a > 0` to `(a, a, a, 255)` and leaves every other pixel exactly unchanged;
in particular pixel `(100, 150, 200, 200)` at threshold 128 becomes
`(200, 200, 200, 255)` while `(100, 150, 200, 64)` stays unchanged. -/
theorem removePartialTransparency_spec :
    (∀ (g : Grid) (t x y : Nat),
      ((t ≤ (g.pix x y).a ∧ 0 < (g.pix x y).a) →
        (removePartialTransparency g t).pix x y =
          ⟨(g.pix x y).a, (g.pix x y).a, (g.pix x y).a, 255⟩) ∧
      (¬(t ≤ (g.pix x y).a ∧ 0 < (g.pix x y).a) →
        (removePartialTransparency g t).pix x y = g.pix x y)) ∧
    (removePartialTransparency gC3a 128).pix 0 0 = ⟨200, 200, 200, 255⟩ ∧
    (removePartialTransparency gC3b 128).pix 0 0 = ⟨100, 150, 200, 64⟩ := by
  refine ⟨fun g t x y => ⟨fun h => ?_, fun h => ?_⟩, by decide, by decide⟩
  · show alphaStep t (g.pix x y) = _
    unfold alphaStep
    rw [if_pos h]
  · show alphaStep t (g.pix x y) = _
    unfold alphaStep
    rw [if_neg h]

/-- Witness for C3 at a concrete grid, threshold and position. -/
theorem removePartialTransparency_spec_witness :
    (128 ≤ (gC3a.pix 0 0).a ∧ 0 < (gC3a.pix 0 0).a) ∧
    (removePartialTransparency gC3a 128).pix 0 0 =
      ⟨(gC3a.pix 0 0).a, (gC3a.pix 0 0).a, (gC3a.pix 0 0).a, 255⟩ :=
  ⟨by decide, (removePartialTransparency_spec.1 gC3a 128 0 0).1 (by decide)⟩

/-- Grid used by the C2 counterexample. -/
def gC2 : Grid := ⟨1, 1, fun _ _ => ⟨100, 150, 200, 200⟩⟩

/-- C2 counterexample: with threshold 128 (within 0..255), the single pixel
`(100, 150, 200, 200)` becomes `(200, 200, 200, 255)` after one pass but
`(255, 255, 255, 255)` after two passes, so applying the alpha normalizer twice
differs from applying it once. -/
theorem removePartialTransparency_not_idempotent :
    (128 : Nat) ≤ 255 ∧
    (removePartialTransparency (removePartialTransparency gC2 128) 128).pix 0 0 ≠
      (removePartialTransparency gC2 128).pix 0 0 :=
  ⟨by decide, by decide⟩

/-- C2 (amended): the alpha normalizer is stable from the second application
on: a third pass with the same threshold changes nothing over the second pass
(the second pass maps every pixel converted by the first pass to
`(255, 255, 255, 255)`, which is a fixed point). -/
theorem removePartialTransparency_stable (g : Grid) (t x y : Nat) :
    (removePartialTransparency
      (removePartialTransparency (removePartialTransparency g t) t) t).pix x y =
      (removePartialTransparency (removePartialTransparency g t) t).pix x y := by
  show alphaStep t (alphaStep t (alphaStep t (g.pix x y))) =
    alphaStep t (alphaStep t (g.pix x y))
  unfold alphaStep
  split_ifs <;> rfl

/-- C8: brightness delta -100 drives every RGB channel of every pixel to 0
while each pixel's alpha is kept exactly; and for every delta, the alpha
channel of every pixel is unchanged by `adjust_brightness`. -/
theorem adjust_brightness_spec (g : Grid) :
    (∀ x y : Nat,
      (adjust_brightness g (-100)).pix x y = ⟨0, 0, 0, (g.pix x y).a⟩) ∧
    (∀ (delta : Int) (x y : Nat),
      ((adjust_brightness g delta).pix x y).a = (g.pix x y).a) := by
  constructor
  · intro x y
    have hb : clampBrightness (-100) = -100 := by decide
    unfold adjust_brightness
    rw [hb, if_neg (by decide)]
    show (⟨min 255 ((g.pix x y).r * (100 + clampBrightness (-100)).toNat / 100),
          min 255 ((g.pix x y).g * (100 + clampBrightness (-100)).toNat / 100),
          min 255 ((g.pix x y).b * (100 + clampBrightness (-100)).toNat / 100),
          (g.pix x y).a⟩ : Pixel) = _
    rw [hb]
    norm_num
  · intro delta x y
    unfold adjust_brightness
    by_cases h : clampBrightness delta = 0
    · rw [if_pos h]
    · rw [if_neg h]

/-- C6: for grids with positive dimensions and padding `p ≥ 0`, `add_padding`
fails with `InvalidPadding` iff `2p ≥ width` or `2p ≥ height`; on success the
result keeps the input dimensions, and `p = 0` returns the input unchanged. -/
theorem add_padding_spec (g : Grid) (p : Int)
    (hw : 0 < g.w) (hh : 0 < g.h) (hp : 0 ≤ p) :
    (add_padding g p = .error .invalidPadding ↔
      ((g.w : Int) ≤ 2 * p ∨ (g.h : Int) ≤ 2 * p)) ∧
    (∀ g', add_padding g p = .ok g' → g'.w = g.w ∧ g'.h = g.h) ∧
    add_padding g 0 = .ok g := by
  refine ⟨?_, ?_, by unfold add_padding; rw [if_pos le_rfl]⟩
  · by_cases h0 : p ≤ 0
    · have hp0 : p = 0 := le_antisymm h0 hp
      subst hp0
      unfold add_padding
      rw [if_pos le_rfl]
      constructor
      · intro h
        exact Except.noConfusion h
      · intro h
        omega
    · unfold add_padding
      rw [if_neg h0]
      by_cases hbig : g.w ≤ 2 * p.toNat ∨ g.h ≤ 2 * p.toNat
      · rw [if_pos hbig]
        constructor
        · intro _
          omega
        · intro _
          rfl
      · rw [if_neg hbig]
        constructor
        · intro h
          exact Except.noConfusion h
        · intro h
          exfalso
          omega
  · intro g' hok
    by_cases h0 : p ≤ 0
    · unfold add_padding at hok
      rw [if_pos h0] at hok
      injection hok with h
      subst h
      exact ⟨rfl, rfl⟩
    · unfold add_padding at hok
      rw [if_neg h0] at hok
      by_cases hbig : g.w ≤ 2 * p.toNat ∨ g.h ≤ 2 * p.toNat
      · rw [if_pos hbig] at hok
        exact Except.noConfusion hok
      · rw [if_neg hbig] at hok
        injection hok with h
        subst h
        exact ⟨rfl, rfl⟩

/-- Grid used by the C6 witness. -/
def gW6 : Grid := ⟨4, 4, fun _ _ => ⟨0, 0, 0, 0⟩⟩

/-- Witness for C6 at a concrete grid and padding. -/
theorem add_padding_spec_witness :
    0 < gW6.w ∧ 0 < gW6.h ∧ (0 : Int) ≤ 1 ∧ add_padding gW6 0 = .ok gW6 :=
  ⟨by decide, by decide, by decide,
    (add_padding_spec gW6 1 (by decide) (by decide) (by decide)).2.2⟩

/-- Exactness of the library's fixed-point compositing on an RGB channel when
the effective source coefficient is full (32640 = 255 * 128) and the
destination contribution vanishes. -/
theorem shiftForDiv255_channel : ∀ c < 256, shiftForDiv255 (c * 32640 + 16384) / 128 = c := by
  intro c hc
  unfold shiftForDiv255
  omega

/-- Exactness of the library's fixed-point compositing on the alpha channel
when the destination is fully transparent. -/
theorem shiftForDiv255_alpha : ∀ a < 256, shiftForDiv255 (a * 255 + 128) = a := by
  intro a ha
  unfold shiftForDiv255
  omega

/-- Compositing a fully transparent source leaves the destination pixel
unchanged. -/
theorem alphaComposite_src_transparent (dst src : Pixel) (h : src.a = 0) :
    alphaCompositePixel dst src = dst := by
  unfold alphaCompositePixel
  rw [if_pos h]

/-- Compositing a valid pixel with nonzero alpha over a fully transparent
destination reproduces the source pixel exactly. -/
theorem alphaComposite_over_transparent_pos (r g b a : Nat) (h : ¬ a = 0)
    (ha : a ≤ 255) (hr : r ≤ 255) (hg : g ≤ 255) (hb : b ≤ 255) :
    alphaCompositePixel ⟨0, 0, 0, 0⟩ ⟨r, g, b, a⟩ = ⟨r, g, b, a⟩ := by
  unfold alphaCompositePixel
  rw [if_neg h]
  have hcoef : a * 255 * 255 * 128 / (a * 255 + 0 * (255 - a)) = 32640 := by
    have he : a * 255 * 255 * 128 = (a * 255) * 32640 := by ring
    rw [zero_mul, add_zero, he,
      Nat.mul_div_cancel_left _ (Nat.mul_pos (Nat.pos_of_ne_zero h) (by norm_num))]
  simp only [Pixel.mk.injEq, hcoef]
  refine ⟨?_, ?_, ?_, ?_⟩
  · rw [Nat.sub_self 32640, mul_zero, add_zero]
    exact shiftForDiv255_channel r (by omega)
  · rw [Nat.sub_self 32640, mul_zero, add_zero]
    exact shiftForDiv255_channel g (by omega)
  · rw [Nat.sub_self 32640, mul_zero, add_zero]
    exact shiftForDiv255_channel b (by omega)
  · rw [zero_mul, add_zero]
    exact shiftForDiv255_alpha a (by omega)

/-- Compositing any valid pixel over a fully transparent destination
reproduces the source pixel exactly (or keeps the destination when the source
is itself fully transparent). -/
theorem alphaComposite_over_transparent (src : Pixel) (hv : src.Valid) :
    alphaCompositePixel ⟨0, 0, 0, 0⟩ src = if src.a = 0 then ⟨0, 0, 0, 0⟩ else src := by
  obtain ⟨r, g, b, a⟩ := src
  obtain ⟨hr, hg, hb, ha⟩ := hv
  by_cases h : a = 0
  · rw [if_pos h]
    exact alphaComposite_src_transparent _ _ h
  · rw [if_neg h]
    exact alphaComposite_over_transparent_pos r g b a h ha hr hg hb

/-- At a position where the input pixel is not fully transparent, `add_outline`
returns exactly the input pixel: the outline mask is unset there, so the layer
below the original is fully transparent. -/
theorem add_outline_pix_nontransparent (g : Grid) (width_px : Nat) (color : Pixel)
    (x y : Nat) (hv : Pixel.Valid (g.pix x y)) (ha : 0 < (g.pix x y).a) :
    (add_outline g width_px color).pix x y = g.pix x y := by
  have hbm : (binaryMask g).m x y = true := by
    simp only [binaryMask, decide_eq_true_eq]
    exact ha
  have hom : (outlineMask g width_px).m x y = false := by
    simp only [outlineMask, hbm, Bool.not_true, Bool.and_false]
  show alphaCompositePixel
      (alphaCompositePixel ⟨0, 0, 0, 0⟩
        (if (outlineMask g width_px).m x y then color else ⟨0, 0, 0, 0⟩))
      (g.pix x y) = g.pix x y
  rw [hom, if_neg (by simp), alphaComposite_src_transparent ⟨0, 0, 0, 0⟩ ⟨0, 0, 0, 0⟩ rfl,
    alphaComposite_over_transparent (g.pix x y) hv, if_neg (by omega)]

/-- At a position of the outline-only region, `add_outline` produces the
outline color composited over a transparent background, under a fully
transparent original pixel. -/
theorem add_outline_pix_outlineRegion (g : Grid) (width_px : Nat) (color : Pixel)
    (hc : color.Valid) (x y : Nat) (hom : (outlineMask g width_px).m x y = true) :
    (add_outline g width_px color).pix x y =
      if color.a = 0 then ⟨0, 0, 0, 0⟩ else color := by
  have hbm : (binaryMask g).m x y = false := by
    simp only [outlineMask, Bool.and_eq_true, Bool.not_eq_true'] at hom
    exact hom.2
  have hga : (g.pix x y).a = 0 := by
    simp only [binaryMask, decide_eq_false_iff_not] at hbm
    omega
  show alphaCompositePixel
      (alphaCompositePixel ⟨0, 0, 0, 0⟩
        (if (outlineMask g width_px).m x y then color else ⟨0, 0, 0, 0⟩))
      (g.pix x y) = _
  rw [hom, if_pos rfl, alphaComposite_src_transparent _ _ hga]
  exact alphaComposite_over_transparent color hc

/-- Grid used by the C4 counterexample: one opaque pixel next to one
transparent pixel. -/
def gC4 : Grid := ⟨2, 1, fun x _ => if x = 0 then ⟨255, 255, 255, 255⟩ else ⟨0, 0, 0, 0⟩⟩

/-- C4 counterexample: with outline width 1 and outline color `(7, 7, 7, 0)`
(a fully transparent RGBA color), the cell `(1, 0)` lies in the dilated-minus-
original region, yet the output pixel there is `(0, 0, 0, 0)`, not the outline
color: the claim's "gaining the outline color" fails for a zero-alpha color. -/
theorem add_outline_zero_alpha_color :
    (outlineMask gC4 1).m 1 0 = true ∧
    (add_outline gC4 1 ⟨7, 7, 7, 0⟩).pix 1 0 ≠ (⟨7, 7, 7, 0⟩ : Pixel) :=
  ⟨by decide, by decide⟩

/-- C4 (amended): for every valid grid, valid outline color and width > 0,
`add_outline` keeps the dimensions; every originally non-transparent pixel
(alpha > 0) keeps exactly its input color and alpha; only pixels that were
fully transparent in the input can change; and where the dilated-minus-original
mask is set, the output equals the outline color whenever the color's alpha is
nonzero (a fully transparent outline color leaves those cells at
`(0, 0, 0, 0)`). -/
theorem add_outline_spec (g : Grid) (width_px : Nat) (color : Pixel)
    (hg : g.Valid) (hc : color.Valid) (hwpos : 0 < width_px) :
    ((add_outline g width_px color).w = g.w ∧ (add_outline g width_px color).h = g.h) ∧
    (∀ x < g.w, ∀ y < g.h, 0 < (g.pix x y).a →
      (add_outline g width_px color).pix x y = g.pix x y) ∧
    (∀ x < g.w, ∀ y < g.h, (add_outline g width_px color).pix x y ≠ g.pix x y →
      (g.pix x y).a = 0) ∧
    (∀ x < g.w, ∀ y < g.h, (outlineMask g width_px).m x y = true →
      (add_outline g width_px color).pix x y =
        if color.a = 0 then ⟨0, 0, 0, 0⟩ else color) := by
  refine ⟨⟨rfl, rfl⟩, ?_, ?_, ?_⟩
  · intro x hx y hy ha
    exact add_outline_pix_nontransparent g width_px color x y (hg x hx y hy) ha
  · intro x hx y hy hne
    by_contra hne0
    exact hne
      (add_outline_pix_nontransparent g width_px color x y (hg x hx y hy) (Nat.pos_of_ne_zero hne0))
  · intro x hx y hy hom
    exact add_outline_pix_outlineRegion g width_px color hc x y hom

/-- Grid used by the C4 witness. -/
def gW4 : Grid := ⟨2, 1, fun x _ => if x = 0 then ⟨10, 20, 30, 255⟩ else ⟨0, 0, 0, 0⟩⟩

/-- Witness for C4 at a concrete grid, width and color. -/
theorem add_outline_spec_witness :
    gW4.Valid ∧ Pixel.Valid ⟨1, 2, 3, 255⟩ ∧ 0 < 1 ∧
    (add_outline gW4 1 ⟨1, 2, 3, 255⟩).pix 0 0 = gW4.pix 0 0 :=
  ⟨by decide, by decide, by decide,
    (add_outline_spec gW4 1 ⟨1, 2, 3, 255⟩ (by decide) (by decide) (by decide)).2.1
      0 (by decide) 0 (by decide) (by decide)⟩

/-- Sequential stage composition distributes over list append. -/
theorem composeStages_append (l1 l2 : List (Grid → Except EffectError Grid)) (g : Grid) :
    composeStages (l1 ++ l2) g = (composeStages l1 g).bind (composeStages l2) := by
  induction l1 generalizing g with
  | nil => simp [composeStages, Except.bind]
  | cons f fs ih =>
    simp only [List.cons_append, composeStages]
    cases f g with
    | ok g1 => simp [Except.bind, ih]
    | error e => simp [Except.bind]

/-- The grid result of `process_image` is the result of the effect chain. -/
theorem process_image_fst (img : Grid) (req : EffectRequest) :
    (process_image img req).1 = pipelineResult img req := by
  unfold process_image
  cases h : pipelineResult img req <;> rfl

/-- C5: the pipeline result equals the composition of exactly the requested
stage functions applied to the input in the fixed order — padding, then alpha
normalization, then brightness, then outline — each stage's output feeding the
next; a stage that is not requested contributes no function to the
composition at all. -/
theorem process_image_is_requested_composition (img : Grid) (req : EffectRequest) :
    (process_image img req).1 = composeStages (requestedStages req) img := by
  rw [process_image_fst]
  obtain ⟨rt, ot, outl, br, pad⟩ := req
  unfold pipelineResult paddingStage requestedStages
  rcases pad with _ | p <;> rcases br with _ | b <;> rcases outl with _ | s <;> cases rt <;>
    simp only [composeStages_append, composeStages, Except.bind] <;>
    (try split_ifs) <;>
    (try cases hpad : add_padding img p) <;>
    (try cases hps : parse_outline_arg s) <;>
    simp_all [composeStages, Except.bind]

/-- C9: every invocation of the pipeline on a decoded input either succeeds
with every requested effect applied and writes exactly one output grid, or
stops at a typed error (`invalidPadding` or `invalidOutlineSpec`) with nothing
written at all — a partially-processed output is never produced. -/
theorem process_image_atomic_output (img : Grid) (req : EffectRequest) :
    (∃ g, process_image img req = (.ok g, [g])) ∨
    (∃ e, process_image img req = (.error e, [])) := by
  unfold process_image
  cases h : pipelineResult img req with
  | ok g => exact Or.inl ⟨g, rfl⟩
  | error e => exact Or.inr ⟨e, rfl⟩
